import Mathlib

/-!
Verification of the weighted-ensemble reweighting core of torchMD-DMS
(`torchmdexp/weighted_ensembles/weighted_ensemble.py`).

Embedding conventions:
* A torch scalar tensor is modelled as a dual number `DD`: the forward value
  `v : ℝ` together with a directional derivative `d : ℝ` with respect to the
  trainable parameters of the neural-network potential.  `tensor.detach()`
  keeps the value and zeroes the derivative.  The elementwise torch
  operations used by the source (`subtract`, `divide`, `exp`, `log`,
  `multiply`, `sum`) become the corresponding dual-number operations.
* A 1-D tensor of per-state scalars is a `List DD` (the source squeezes the
  `(n,1)` energy tensor to shape `(n)`); per-state order is preserved.
* The external neural-network potential `self.nnp` (a collaborator, not part
  of this repository's core) together with the fixed embeddings is abstracted
  as a per-state energy function `nnp : σ → DD`; the source calls it on a
  whole sub-batch and receives one energy per state in order, which is the
  same as mapping the per-state function over the sub-batch.
* Python machine floats are modelled as exact reals; the claims under test
  are about the algebraic behaviour of the pipeline, not float rounding.
* The mode flag `val` of `compute_gradients` is compared with `==` against
  the Python booleans in the source, so it is modelled as a `PyVal` with
  Python's cross-type numeric equality.
* The optimizer's per-parameter gradient slots are a `List (Option ℝ)`
  (one slot per parameter, `none` when no gradient is attached);
  `loss.backward()` is an abstract mutation of those slots, passed in as a
  function, since autograd itself is an external collaborator.
* Name mapping (Lean identifiers cannot comfortably carry the source's
  leading underscores): `_extEpot → extEpot`, `_weights → weightsOf`,
  `_effectiven → effectiven`; all other names are kept.
-/

namespace TorchmdDMS

noncomputable section

/-- Dual number: forward value `v` and directional derivative `d` with
respect to the trainable parameters of the potential. -/
@[ext]
structure DD where
  v : ℝ
  d : ℝ

/-- Model of `tensor.detach()`: same value, no gradient. -/
def DD.detach (x : DD) : DD := ⟨x.v, 0⟩

/-- Model of `torch.subtract`, elementwise on scalars. -/
def DD.sub (a b : DD) : DD := ⟨a.v - b.v, a.d - b.d⟩

/-- Model of unary `-` on tensors. -/
def DD.neg (a : DD) : DD := ⟨-a.v, -a.d⟩

/-- Model of `+` on scalar tensors (used to fold `tensor.sum()`). -/
def DD.add (a b : DD) : DD := ⟨a.v + b.v, a.d + b.d⟩

/-- Model of `torch.multiply` on scalars, with the autograd product rule. -/
def DD.mul (a b : DD) : DD := ⟨a.v * b.v, a.d * b.v + a.v * b.d⟩

/-- Model of `torch.divide` of two tensors, with the autograd quotient rule. -/
def DD.div (a b : DD) : DD := ⟨a.v / b.v, (a.d * b.v - a.v * b.d) / (b.v * b.v)⟩

/-- Model of `torch.divide` of a tensor by a Python float `s`. -/
def DD.divs (a : DD) (s : ℝ) : DD := ⟨a.v / s, a.d / s⟩

/-- Model of `torch.exp` on a scalar, with its autograd derivative. -/
def DD.exp (a : DD) : DD := ⟨Real.exp a.v, a.d * Real.exp a.v⟩

/-- Model of `torch.log` on a scalar, with its autograd derivative.  This is
faithful only for strictly positive arguments: at `0`, torch produces `-inf`
(and `0 * -inf = NaN` downstream) while `Real.log 0 = 0`.  Statements about
`effectiven` on weight vectors that may contain zero entries must therefore
use the IEEE-754 float model `flEffectiven` below instead. -/
def DD.log (a : DD) : DD := ⟨Real.log a.v, a.d / a.v⟩

/-- Model of `tensor.sum()` over a 1-D tensor of scalars. -/
def dsum (l : List DD) : DD := l.foldr DD.add ⟨0, 0⟩

/-- The constant `BOLTZMAN = 0.001987191` from the source module. -/
def BOLTZMAN : ℝ := 0.001987191

/-- Embedding of `WeightedEnsemble._extEpot`.  `batch_num` is the Python
floor division `states.shape[0] // self.replicas`; the loop takes for each
`irepl < replicas` the contiguous slice
`states[batch_num*irepl : batch_num*(irepl+1)]`, evaluates the potential on
it, and concatenates the per-state energies in replica order; the detached
energies are the detached copies of the same values, concatenated in the same
order.  The unused `mode` keyword and the `(n,1) → (n)` squeeze are omitted.
Every operation on this path is total in the source (Python slicing clamps,
`torch.cat` accepts empty tensors); the function raises nothing. -/
def extEpot {σ : Type} (nnp : σ → DD) (replicas : ℕ) (states : List σ) :
    List DD × List DD :=
  let batch_num := states.length / replicas
  let ext_energies := (List.range replicas).flatMap
    (fun irepl => ((states.drop (batch_num * irepl)).take batch_num).map nnp)
  (ext_energies, ext_energies.map DD.detach)

/-- Embedding of the unnormalized log-weight computation
`U_arg = -torch.divide(torch.subtract(U_ext, U_ext_hat), self.T*BOLTZMAN)`
from `WeightedEnsemble._weights`. -/
def uArg (U_ext U_ext_hat : List DD) (T : ℝ) : List DD :=
  (List.zipWith DD.sub U_ext U_ext_hat).map
    (fun x => DD.neg (DD.divs x (T * BOLTZMAN)))

/-- Embedding of `WeightedEnsemble._weights`: computes the external energies
and their detached copy, the exponentials of the log-weights, and normalizes
by their sum; returns the weights and the detached energies.  The
commented-out overflow guard in the source is disabled there and hence absent
here. -/
def weightsOf {σ : Type} (nnp : σ → DD) (replicas : ℕ) (T : ℝ)
    (states : List σ) : List DD × List DD :=
  let p := extEpot nnp replicas states
  let exponentials := (uArg p.1 p.2 T).map DD.exp
  (exponentials.map (fun e => DD.div e (dsum exponentials)), p.2)

/-- Embedding of `WeightedEnsemble._effectiven`:
`neff = torch.exp(-torch.sum(torch.multiply(weights, torch.log(weights)))).detach()`. -/
def effectiven (weights : List DD) : DD :=
  let lnwi := weights.map DD.log
  DD.detach (DD.exp (DD.neg (dsum (List.zipWith DD.mul weights lnwi))))

/-- The clamp bound `10e6` of the source, i.e. `10 · 10⁶ = 10⁷`. -/
def CLAMP : ℝ := 10000000

/-- Embedding of `WeightedEnsemble.compute_we`.  The observable of each state
is `metric state crystal`; `torch.where(obs > 10e6, 10e6, obs)` clamps each
observable; `avg_metric` is the (detached) mean of the clamped observables;
the weighted ensemble is `torch.multiply(weights, obs).sum()`, where the
fresh `obs` tensor carries no gradient.  The `neff_threshold` keyword is
accepted and, as in the source body, never read. -/
def compute_we {σ : Type} (nnp : σ → DD) (metric : σ → σ → ℝ) (replicas : ℕ)
    (T : ℝ) (states : List σ) (crystal : σ) (neff_threshold : Option ℝ) :
    DD × ℝ :=
  let w := (weightsOf nnp replicas T states).1
  let obs0 := states.map (fun s => metric s crystal)
  let obs := obs0.map (fun o => if o > CLAMP then CLAMP else o)
  let avg_metric := obs.sum / obs.length
  (dsum (List.zipWith (fun wi oi => DD.mul wi ⟨oi, 0⟩) w obs), avg_metric)

/-- Embedding of `WeightedEnsemble.compute_loss` restricted to what the
claims read from it: the loss `self.loss_fn(w_e)` and the `avg_metric`
diagnostic.  `compute_we` is called with its default `neff_threshold=None`. -/
def compute_loss {σ : Type} (nnp : σ → DD) (metric : σ → σ → ℝ)
    (lossFn : DD → DD) (replicas : ℕ) (T : ℝ) (crystal : σ)
    (states : List σ) : DD × ℝ :=
  let r := compute_we nnp metric replicas T states crystal Option.none
  (lossFn r.1, r.2)

/-- Model of a Python runtime value passed as the `val` mode flag. -/
inductive PyVal where
  | bool (b : Bool)
  | int (n : ℤ)
  | float (q : ℚ)
  | str (s : String)
  | none

/-- Numeric content of a Python value, when it has one: Python treats
`True`/`False` as the numbers `1`/`0` for `==`. -/
def PyVal.num : PyVal → Option ℚ
  | .bool b => some (if b then 1 else 0)
  | .int n => some (n : ℚ)
  | .float q => some q
  | _ => Option.none

/-- Python `==` on the modelled values: numbers (including booleans) compare
by numeric value, strings by content, `None` only to itself. -/
def pyEq : PyVal → PyVal → Bool
  | .str s, .str t => s == t
  | .none, .none => true
  | a, b =>
    match a.num, b.num with
    | some x, some y => x == y
    | _, _ => false

/-- Whether a Python value is one of the two booleans. -/
def pyIsBool : PyVal → Bool
  | .bool _ => true
  | _ => false

/-- Model of `optimizer.zero_grad()` on the per-parameter gradient slots:
every attached gradient is zeroed in place. -/
def zero_grad (grads : List (Option ℝ)) : List (Option ℝ) :=
  grads.map (Option.map (fun _ => (0 : ℝ)))

/-- Embedding of `WeightedEnsemble.compute_gradients`.  The branch structure
follows the source: `if val == False` zeroes the optimizer gradients,
computes the loss, and backpropagates only when `loss != 0.0` (a value
comparison), returning the per-parameter gradient list; on zero loss it
returns `None` for the gradients; `elif val == True` computes the loss
without touching the gradient slots and returns `None`; any other flag
reaches the final `else`, which raises `ValueError`.  `loss.backward()` is
the abstract slot mutation `backward`; the unused `native_ensemble` argument
and the `grads_to_cpu` array-transport detail are omitted (the modelled
extraction is the `grads_to_cpu=True` form: one entry per parameter, `none`
kept for parameters without gradients).  The returned triple is
`(grads, loss.item(), grad-slot state)`. -/
def compute_gradients {σ : Type} (nnp : σ → DD) (metric : σ → σ → ℝ)
    (lossFn : DD → DD) (backward : List (Option ℝ) → List (Option ℝ))
    (replicas : ℕ) (T : ℝ) (crystal : σ) (states : List σ)
    (grads0 : List (Option ℝ)) (val : PyVal) :
    Except Unit (Option (List (Option ℝ)) × ℝ × List (Option ℝ)) :=
  if pyEq val (.bool false) then
    let g1 := zero_grad grads0
    let loss := (compute_loss nnp metric lossFn replicas T crystal states).1
    if loss.v ≠ 0 then
      let g2 := backward g1
      .ok (some g2, loss.v, g2)
    else
      .ok (Option.none, loss.v, g1)
  else if pyEq val (.bool true) then
    let loss := (compute_loss nnp metric lossFn replicas T crystal states).1
    .ok (Option.none, loss.v, grads0)
  else
    .error ()

/-- Modelled from the spec: `torchmdexp/utils/clip_grad.py` (the `Queue`
class) is imported by the source but is not under `src/`.  Per spec sections
3, 4.4 and 9 the gradient-norm history is a bounded FIFO of scalars exposing
`mean()` and `std()`; `mean` is the arithmetic mean of the stored norms. -/
def qmean (q : List ℝ) : ℝ := q.sum / q.length

/-- Modelled from the spec: the `std()` of the gradient-norm history queue
(`torchmdexp/utils/clip_grad.py`, not under `src/`), the standard deviation
of the stored norms. -/
def qstd (q : List ℝ) : ℝ :=
  Real.sqrt ((q.map (fun x => (x - qmean q) ^ 2)).sum / q.length)

/-- Modelled from the spec: appending to the gradient-norm history queue.
The spec fixes no numeric capacity for the bounded FIFO; eviction of the
oldest entry once capacity is reached does not affect the claims checked
here, so `add` is plain appending. -/
def qadd (q : List ℝ) (x : ℝ) : List ℝ := q ++ [x]

/-- Euclidean norm of one parameter's gradient array. -/
def enorm (g : List ℝ) : ℝ := Real.sqrt ((g.map (fun x => x ^ 2)).sum)

/-- Modelled from the spec: `clip_grad.get_grad_norm(params)`
(`torchmdexp/utils/clip_grad.py`, not under `src/`) returns "the current
total gradient norm across all optimizer-tracked parameters": the Euclidean
norm over all attached gradient entries; parameters without a gradient
contribute nothing. -/
def get_grad_norm (params : List (Option (List ℝ))) : ℝ :=
  Real.sqrt ((params.map (fun g =>
    match g with
    | some v => (v.map (fun x => x ^ 2)).sum
    | _ => 0)).sum)

/-- Model of `torch.nn.utils.clip_grad_norm_(p, max_norm)` applied to a
single parameter: if the parameter's gradient norm exceeds `max_norm`, the
gradient is scaled by `max_norm / norm`; otherwise it is unchanged.  (The
library's `1e-6` denominator fudge term is a float-safety detail dropped by
the exact-real model.) -/
def clip_grad_norm (g : List ℝ) (max_norm : ℝ) : List ℝ :=
  if enorm g > max_norm then g.map (fun x => x * (max_norm / enorm g)) else g

/-- Embedding of `WeightedEnsemble.clip_gradients`, acting on the explicit
state (gradient-norm history queue, per-parameter gradient slots):
`dynamic_max_grad_norm = 1.5 * queue.mean() + 2 * queue.std()`; the pre-clip
total norm is `get_grad_norm`; every parameter with an attached gradient is
clipped individually by `torch.nn.utils.clip_grad_norm_`; finally the
threshold is appended to the history if the pre-clip norm exceeded it,
otherwise the raw norm is appended. -/
def clip_gradients (gradnorm_queue : List ℝ)
    (params : List (Option (List ℝ))) : List ℝ × List (Option (List ℝ)) :=
  let dynamic_max_grad_norm := 1.5 * qmean gradnorm_queue + 2 * qstd gradnorm_queue
  let grad_norm := get_grad_norm params
  let params2 := params.map (fun g => g.map (fun v => clip_grad_norm v dynamic_max_grad_norm))
  if grad_norm > dynamic_max_grad_norm then
    (qadd gradnorm_queue dynamic_max_grad_norm, params2)
  else
    (qadd gradnorm_queue grad_norm, params2)

/-- An IEEE-754 double as torch sees it: a finite value, one of the two
infinities, or NaN.  This companion model carries the float special values
that the exact-real `DD` model cannot express; it is used to evaluate
`_effectiven` faithfully on weight vectors containing zero entries. -/
inductive Fl where
  | fin (x : ℝ)
  | pinf
  | ninf
  | nan

/-- Model of `torch.log` on a finite float, with IEEE special values:
`log 0 = -inf`, `log x = NaN` for `x < 0`. -/
def flLog (x : ℝ) : Fl :=
  if x = 0 then Fl.ninf else if x < 0 then Fl.nan else Fl.fin (Real.log x)

/-- IEEE-754 multiplication on float special values: NaN propagates, and
`0 * (±inf) = NaN`. -/
def flMul : Fl → Fl → Fl
  | .nan, _ => .nan
  | _, .nan => .nan
  | .fin x, .fin y => .fin (x * y)
  | .fin x, .pinf => if x > 0 then .pinf else if x < 0 then .ninf else .nan
  | .fin x, .ninf => if x > 0 then .ninf else if x < 0 then .pinf else .nan
  | .pinf, .fin y => if y > 0 then .pinf else if y < 0 then .ninf else .nan
  | .ninf, .fin y => if y > 0 then .ninf else if y < 0 then .pinf else .nan
  | .pinf, .pinf => .pinf
  | .pinf, .ninf => .ninf
  | .ninf, .pinf => .ninf
  | .ninf, .ninf => .pinf

/-- IEEE-754 addition on float special values: NaN propagates, and
`inf + (-inf) = NaN`. -/
def flAdd : Fl → Fl → Fl
  | .nan, _ => .nan
  | _, .nan => .nan
  | .fin x, .fin y => .fin (x + y)
  | .fin _, .pinf => .pinf
  | .fin _, .ninf => .ninf
  | .pinf, .fin _ => .pinf
  | .ninf, .fin _ => .ninf
  | .pinf, .pinf => .pinf
  | .ninf, .ninf => .ninf
  | .pinf, .ninf => .nan
  | .ninf, .pinf => .nan

/-- IEEE-754 negation on float special values. -/
def flNeg : Fl → Fl
  | .fin x => .fin (-x)
  | .pinf => .ninf
  | .ninf => .pinf
  | .nan => .nan

/-- IEEE-754 exponential on float special values: `exp(-inf) = 0`,
`exp(inf) = inf`, NaN propagates. -/
def flExp : Fl → Fl
  | .fin x => .fin (Real.exp x)
  | .pinf => .pinf
  | .ninf => .fin 0
  | .nan => .nan

/-- Model of `tensor.sum()` under IEEE float semantics. -/
def flSum (l : List Fl) : Fl := l.foldr flAdd (Fl.fin 0)

/-- The value computation of `WeightedEnsemble._effectiven`
(`torch.exp(-torch.sum(torch.multiply(weights, torch.log(weights)))).detach()`)
under the IEEE-754 float semantics torch implements, applied to the finite
weight values (`detach` does not change the value and is dropped).  On a
weight vector containing a zero entry, `torch.log` yields `-inf` there, the
multiply yields `0 * -inf = NaN`, and NaN propagates through sum, negation
and exp. -/
def flEffectiven (weights : List ℝ) : Fl :=
  flExp (flNeg (flSum (List.zipWith flMul (weights.map Fl.fin)
    (weights.map flLog))))

/-- Embedding of `WeightedEnsemble.apply_gradients` restricted to the
gradient state (the trailing `optimizer.step()` touches only hidden
optimizer internals): when `gradients` is truthy (not `None` and non-empty),
each non-`None` gradient array is assigned onto the corresponding
parameter's slot and dynamic clipping runs; otherwise nothing changes. -/
def apply_gradients (gradnorm_queue : List ℝ)
    (gradients : Option (List (Option (List ℝ))))
    (params : List (Option (List ℝ))) : List ℝ × List (Option (List ℝ)) :=
  match gradients with
  | some gs =>
    if gs ≠ [] then
      clip_gradients gradnorm_queue
        (List.zipWith (fun g p => match g with | some v => some v | _ => p) gs params)
    else (gradnorm_queue, params)
  | _ => (gradnorm_queue, params)

end

/-! Basic lemmas about the dual-number operations and list sums. -/

theorem dsum_cons (x : DD) (xs : List DD) : dsum (x :: xs) = DD.add x (dsum xs) := rfl

theorem dsum_v (l : List DD) : (dsum l).v = (l.map DD.v).sum := by
  induction l with
  | nil => rfl
  | cons x xs ih => rw [dsum_cons]; simp [DD.add, ih]

theorem dsum_d (l : List DD) : (dsum l).d = (l.map DD.d).sum := by
  induction l with
  | nil => rfl
  | cons x xs ih => rw [dsum_cons]; simp [DD.add, ih]

theorem sum_map_const {α : Type} (l : List α) (c : ℝ) :
    (l.map (fun _ => c)).sum = l.length * c := by
  induction l with
  | nil => simp
  | cons x xs ih => simp [ih]; ring

/-! Lemmas locating the energies computed by the external-potential
evaluator: the replica loop covers exactly the first
`replicas * (n / replicas)` states. -/

theorem slices_eq_take {σ : Type} (l : List σ) (bn : ℕ) (r : ℕ) :
    (List.range r).flatMap (fun i => (l.drop (bn * i)).take bn) = l.take (r * bn) := by
  induction r with
  | zero => simp
  | succ n ih =>
    rw [List.range_succ, List.flatMap_append, ih]
    simp only [List.flatMap_cons, List.flatMap_nil, List.append_nil]
    rw [Nat.succ_mul, List.take_add, Nat.mul_comm bn n]

theorem extEpot_fst {σ : Type} (nnp : σ → DD) (replicas : ℕ) (states : List σ) :
    (extEpot nnp replicas states).1
      = (states.take (replicas * (states.length / replicas))).map nnp := by
  show (List.range replicas).flatMap
      (fun irepl => ((states.drop (states.length / replicas * irepl)).take
        (states.length / replicas)).map nnp)
      = (states.take (replicas * (states.length / replicas))).map nnp
  rw [← List.map_flatMap, slices_eq_take]

theorem extEpot_snd {σ : Type} (nnp : σ → DD) (replicas : ℕ) (states : List σ) :
    (extEpot nnp replicas states).2 = ((extEpot nnp replicas states).1).map DD.detach := rfl

theorem extEpot_length {σ : Type} (nnp : σ → DD) (replicas : ℕ) (states : List σ) :
    ((extEpot nnp replicas states).1).length
      = replicas * (states.length / replicas) := by
  rw [extEpot_fst, List.length_map, List.length_take]
  exact Nat.min_eq_left (by rw [Nat.mul_comm]; exact Nat.div_mul_le_self _ _)

theorem extEpot_length_pos {σ : Type} (nnp : σ → DD) (replicas : ℕ) (states : List σ)
    (h1 : 1 ≤ replicas) (h2 : replicas ≤ states.length) :
    0 < ((extEpot nnp replicas states).1).length := by
  rw [extEpot_length]
  exact Nat.mul_pos h1 ((Nat.one_le_div_iff h1).2 h2)

/-! Closed form of the importance weights: the detached energies cancel the
energies in value, so each unnormalized log-weight has value `0` and carries
only the energy derivative. -/

theorem uArg_detach (U : List DD) (T : ℝ) :
    uArg U (U.map DD.detach) T
      = U.map (fun x => (⟨0, -(x.d / (T * BOLTZMAN))⟩ : DD)) := by
  unfold uArg
  rw [List.zipWith_map_right, List.zipWith_same, List.map_map]
  have h : ((fun x => DD.neg (DD.divs x (T * BOLTZMAN))) ∘ fun a : DD => DD.sub a a.detach)
      = (fun x : DD => (⟨0, -(x.d / (T * BOLTZMAN))⟩ : DD)) := by
    funext x
    simp [DD.sub, DD.detach, DD.divs, DD.neg, Function.comp]
  rw [h]

theorem weightsOf_def {σ : Type} (nnp : σ → DD) (replicas : ℕ) (T : ℝ) (states : List σ) :
    weightsOf nnp replicas T states
      = (((uArg (extEpot nnp replicas states).1 (extEpot nnp replicas states).2 T).map DD.exp).map
          (fun e => DD.div e (dsum ((uArg (extEpot nnp replicas states).1
            (extEpot nnp replicas states).2 T).map DD.exp))),
         (extEpot nnp replicas states).2) := rfl

theorem exponentials_eq {σ : Type} (nnp : σ → DD) (replicas : ℕ) (T : ℝ) (states : List σ) :
    (uArg (extEpot nnp replicas states).1 (extEpot nnp replicas states).2 T).map DD.exp
      = ((extEpot nnp replicas states).1).map
          (fun x => (⟨1, -(x.d / (T * BOLTZMAN))⟩ : DD)) := by
  rw [extEpot_snd, uArg_detach, List.map_map]
  have h : (DD.exp ∘ fun x : DD => (⟨0, -(x.d / (T * BOLTZMAN))⟩ : DD))
      = (fun x : DD => (⟨1, -(x.d / (T * BOLTZMAN))⟩ : DD)) := by
    funext x
    simp [DD.exp, Function.comp]
  rw [h]

theorem weightsOf_eq {σ : Type} (nnp : σ → DD) (replicas : ℕ) (T : ℝ) (states : List σ) :
    (weightsOf nnp replicas T states).1
      = ((extEpot nnp replicas states).1).map (fun x =>
          DD.div (⟨1, -(x.d / (T * BOLTZMAN))⟩ : DD)
            (⟨(((extEpot nnp replicas states).1).length : ℝ),
              (((extEpot nnp replicas states).1).map
                (fun y => -(y.d / (T * BOLTZMAN)))).sum⟩ : DD)) := by
  have hS : dsum (((extEpot nnp replicas states).1).map
        (fun x => (⟨1, -(x.d / (T * BOLTZMAN))⟩ : DD)))
      = (⟨(((extEpot nnp replicas states).1).length : ℝ),
          (((extEpot nnp replicas states).1).map
            (fun y => -(y.d / (T * BOLTZMAN)))).sum⟩ : DD) := by
    ext
    · rw [dsum_v, List.map_map]
      have h : (DD.v ∘ fun x : DD => (⟨1, -(x.d / (T * BOLTZMAN))⟩ : DD))
          = (fun _ : DD => (1 : ℝ)) := rfl
      rw [h, sum_map_const, mul_one]
    · rw [dsum_d, List.map_map]
      rfl
  rw [weightsOf_def]
  dsimp only
  rw [exponentials_eq, hS, List.map_map]
  rfl

theorem sum_map_neg_div (U : List DD) (c : ℝ) :
    (U.map (fun y => -(y.d / c))).sum = -((U.map DD.d).sum / c) := by
  induction U with
  | nil => simp
  | cons x xs ih => simp [ih]; ring

theorem BOLTZMAN_pos : (0 : ℝ) < BOLTZMAN := by norm_num [BOLTZMAN]

/-- C1.  For every state batch and embeddings, the importance-weight
estimator computes the unnormalized log-weight of state `i` as
`u_i = -(energies_i - energies_detached_i) / (T * k_B)` with
`k_B = BOLTZMAN = 0.001987191`; every `u_i` has value `0` because the
detached energies are numerically identical to the energies, so every weight
has value `1/n` (the uniform vector), while each weight's derivative with
respect to the potential parameters is the nonzero quotient given by the
closed form below (nonzero whenever the state's energy derivative differs
from the mean energy derivative and the temperature is positive). -/
theorem weights_uniform_but_gradient_bearing {σ : Type} (nnp : σ → DD)
    (replicas : ℕ) (T : ℝ) (states : List σ) :
    (∀ u ∈ uArg (extEpot nnp replicas states).1 (extEpot nnp replicas states).2 T,
      u.v = 0) ∧
    (weightsOf nnp replicas T states).1
      = ((extEpot nnp replicas states).1).map (fun x =>
          DD.div (⟨1, -(x.d / (T * BOLTZMAN))⟩ : DD)
            (⟨(((extEpot nnp replicas states).1).length : ℝ),
              (((extEpot nnp replicas states).1).map
                (fun y => -(y.d / (T * BOLTZMAN)))).sum⟩ : DD)) ∧
    (∀ w ∈ (weightsOf nnp replicas T states).1,
      w.v = 1 / (((extEpot nnp replicas states).1).length : ℝ)) ∧
    (∀ i (hw : i < ((weightsOf nnp replicas T states).1).length)
        (hU : i < ((extEpot nnp replicas states).1).length), 0 < T →
      (((extEpot nnp replicas states).1).length : ℝ)
          * (((extEpot nnp replicas states).1).get ⟨i, hU⟩).d
        ≠ (((extEpot nnp replicas states).1).map DD.d).sum →
      (((weightsOf nnp replicas T states).1).get ⟨i, hw⟩).d ≠ 0) := by
  refine ⟨?_, weightsOf_eq nnp replicas T states, ?_, ?_⟩
  · intro u hu
    rw [extEpot_snd, uArg_detach] at hu
    obtain ⟨x, _, rfl⟩ := List.mem_map.1 hu
    rfl
  · intro w hw
    rw [weightsOf_eq] at hw
    obtain ⟨x, _, rfl⟩ := List.mem_map.1 hw
    rfl
  · intro i hw hU hT hd
    have hc : T * BOLTZMAN ≠ 0 := ne_of_gt (mul_pos hT BOLTZMAN_pos)
    have hn : (0 : ℝ) < (((extEpot nnp replicas states).1).length : ℝ) := by
      exact_mod_cast Nat.lt_of_le_of_lt (Nat.zero_le i) hU
    rw [List.get_eq_getElem] at hd
    simp only [List.get_eq_getElem, weightsOf_eq, List.getElem_map]
    show (-((((extEpot nnp replicas states).1).get ⟨i, hU⟩).d / (T * BOLTZMAN))
            * (((extEpot nnp replicas states).1).length : ℝ)
          - 1 * (((extEpot nnp replicas states).1).map
              (fun y => -(y.d / (T * BOLTZMAN)))).sum)
        / ((((extEpot nnp replicas states).1).length : ℝ)
            * (((extEpot nnp replicas states).1).length : ℝ)) ≠ 0
    rw [sum_map_neg_div]
    have hne : -((((extEpot nnp replicas states).1).get ⟨i, hU⟩).d / (T * BOLTZMAN))
            * (((extEpot nnp replicas states).1).length : ℝ)
          - 1 * -((((extEpot nnp replicas states).1).map DD.d).sum / (T * BOLTZMAN))
        = ((((extEpot nnp replicas states).1).map DD.d).sum
            - (((extEpot nnp replicas states).1).length : ℝ)
              * (((extEpot nnp replicas states).1).get ⟨i, hU⟩).d) / (T * BOLTZMAN) := by
      field_simp
      ring
    rw [hne]
    exact div_ne_zero (div_ne_zero (sub_ne_zero_of_ne (Ne.symm hd)) hc)
      (ne_of_gt (mul_pos hn hn))

/-- Witness for C1: two states with energies of derivative `0` and `1`, one
replica, `T = 350`; the second weight's value is uniform yet its derivative
is nonzero. -/
theorem weights_uniform_but_gradient_bearing_witness :
    ((0 : ℝ) < 350 ∧
      (((extEpot (fun x : ℝ => (⟨0, x⟩ : DD)) 1 [(0:ℝ), 1]).1).length : ℝ)
          * (((extEpot (fun x : ℝ => (⟨0, x⟩ : DD)) 1 [(0:ℝ), 1]).1).get
              ⟨1, by decide⟩).d
        ≠ (((extEpot (fun x : ℝ => (⟨0, x⟩ : DD)) 1 [(0:ℝ), 1]).1).map DD.d).sum) ∧
    (((weightsOf (fun x : ℝ => (⟨0, x⟩ : DD)) 1 350 [(0:ℝ), 1]).1).get
        ⟨1, by decide⟩).d ≠ 0 := by
  have hd1 : (((extEpot (fun x : ℝ => (⟨0, x⟩ : DD)) 1 [(0:ℝ), 1]).1).length : ℝ)
        * (((extEpot (fun x : ℝ => (⟨0, x⟩ : DD)) 1 [(0:ℝ), 1]).1).get
            ⟨1, by decide⟩).d
      ≠ (((extEpot (fun x : ℝ => (⟨0, x⟩ : DD)) 1 [(0:ℝ), 1]).1).map DD.d).sum := by
    show ((2 : ℕ) : ℝ) * (1 : ℝ) ≠ ([(0:ℝ), 1]).sum
    norm_num
  exact ⟨⟨by norm_num, hd1⟩,
    (weights_uniform_but_gradient_bearing (fun x : ℝ => (⟨0, x⟩ : DD)) 1 350
      [(0:ℝ), 1]).2.2.2 1 (by decide) (by decide) (by norm_num) hd1⟩

/-- C2.  Every weight vector produced by the estimator's weight computation
(softmax normalization `w_i = exp(u_i) / Σ_j exp(u_j)`) has nonnegative
components that sum to exactly 1 (exactly, in the real-number model of the
float computation). -/
theorem weights_nonneg_sum_one {σ : Type} (nnp : σ → DD) (replicas : ℕ)
    (T : ℝ) (states : List σ) (h1 : 1 ≤ replicas)
    (h2 : replicas ≤ states.length) :
    (∀ w ∈ (weightsOf nnp replicas T states).1, 0 ≤ w.v) ∧
    (((weightsOf nnp replicas T states).1).map DD.v).sum = 1 := by
  have hlen := extEpot_length_pos nnp replicas states h1 h2
  constructor
  · intro w hw
    rw [weightsOf_eq] at hw
    obtain ⟨x, _, rfl⟩ := List.mem_map.1 hw
    show (0 : ℝ) ≤ 1 / (((extEpot nnp replicas states).1).length : ℝ)
    exact div_nonneg zero_le_one (Nat.cast_nonneg _)
  · rw [weightsOf_eq, List.map_map]
    have h : (DD.v ∘ fun x => DD.div (⟨1, -(x.d / (T * BOLTZMAN))⟩ : DD)
          (⟨(((extEpot nnp replicas states).1).length : ℝ),
            (((extEpot nnp replicas states).1).map
              (fun y => -(y.d / (T * BOLTZMAN)))).sum⟩ : DD))
        = (fun _ : DD => 1 / (((extEpot nnp replicas states).1).length : ℝ)) := rfl
    rw [h, sum_map_const, mul_one_div, div_self]
    exact ne_of_gt (by exact_mod_cast hlen)

/-- Witness for C2: two states, one replica. -/
theorem weights_nonneg_sum_one_witness :
    ((1 : ℕ) ≤ 1 ∧ (1 : ℕ) ≤ [(1:ℝ), 2].length) ∧
    (∀ w ∈ (weightsOf (fun x : ℝ => (⟨x, 0⟩ : DD)) 1 350 [(1:ℝ), 2]).1, 0 ≤ w.v) ∧
    (((weightsOf (fun x : ℝ => (⟨x, 0⟩ : DD)) 1 350 [(1:ℝ), 2]).1).map DD.v).sum = 1 :=
  ⟨⟨by decide, by decide⟩,
    weights_nonneg_sum_one (fun x : ℝ => (⟨x, 0⟩ : DD)) 1 350 [(1:ℝ), 2]
      (by decide) (by decide)⟩

/-- C7 counterexample: 5 states with 2 replicas (`2 ∤ 5`): the evaluator
does not fail — it silently returns energies for only the first
`2 * (5 / 2) = 4` states, dropping the fifth.  (Every operation on this path
is total in the source: Python slicing clamps and `torch.cat` accepts the
pieces, so there is no error to raise; the function returns normally.) -/
theorem extEpot_silent_subset_counterexample :
    ¬ (2 ∣ 5) ∧
    (extEpot (fun x : ℝ => (⟨x, 0⟩ : DD)) 2 [(1:ℝ), 2, 3, 4, 5]).1
      = [⟨1, 0⟩, ⟨2, 0⟩, ⟨3, 0⟩, ⟨4, 0⟩] :=
  ⟨by decide, rfl⟩

/-- C7 amended: for every input, the external-potential evaluator raises no
error; it computes energies for exactly the first
`replicas * (n_states / replicas)` states (in order) and silently drops the
remainder when the state count is not divisible by the replica count. -/
theorem extEpot_processes_initial_segment {σ : Type} (nnp : σ → DD) (replicas : ℕ)
    (states : List σ) :
    (extEpot nnp replicas states).1
      = (states.take (replicas * (states.length / replicas))).map nnp ∧
    ((extEpot nnp replicas states).1).length
      = replicas * (states.length / replicas) :=
  ⟨extEpot_fst nnp replicas states, extEpot_length nnp replicas states⟩

/-! Lemmas about the effective-sample-size computation. -/

theorem sum_map_neg {α : Type} (l : List α) (f : α → ℝ) :
    (l.map (fun a => -(f a))).sum = -((l.map f).sum) := by
  induction l with
  | nil => simp
  | cons x xs ih => simp [ih]; ring

theorem sum_map_add {α : Type} (l : List α) (f g : α → ℝ) :
    (l.map (fun a => f a + g a)).sum = (l.map f).sum + (l.map g).sum := by
  induction l with
  | nil => simp
  | cons x xs ih => simp [ih]; ring

theorem sum_map_sub {α : Type} (l : List α) (f g : α → ℝ) :
    (l.map (fun a => f a - g a)).sum = (l.map f).sum - (l.map g).sum := by
  induction l with
  | nil => simp
  | cons x xs ih => simp [ih]; ring

theorem effectiven_d (ws : List DD) : (effectiven ws).d = 0 := rfl

theorem effectiven_v (ws : List DD) :
    (effectiven ws).v
      = Real.exp (-((ws.map (fun w => w.v * Real.log w.v)).sum)) := by
  show Real.exp (-(dsum (List.zipWith DD.mul ws (ws.map DD.log))).v) = _
  rw [dsum_v]
  congr 2
  rw [List.zipWith_map_right, List.zipWith_same, List.map_map]
  rfl

theorem ws_ne_nil_of_sum_one {ws : List DD} (h1 : (ws.map DD.v).sum = 1) :
    ws ≠ [] := by
  intro h
  rw [h] at h1
  simp at h1

theorem negMulLog_le_aux {x n : ℝ} (hx : 0 ≤ x) (hn : 0 < n) :
    -(x * Real.log x) ≤ x * Real.log n + (1 / n - x) := by
  rcases eq_or_lt_of_le hx with heq | hpos
  · rw [← heq]
    simp
    positivity
  · have hlog : Real.log ((x * n)⁻¹) ≤ (x * n)⁻¹ - 1 :=
      Real.log_le_sub_one_of_pos (by positivity)
    have hmul := mul_le_mul_of_nonneg_left hlog (le_of_lt hpos)
    have he1 : Real.log ((x * n)⁻¹) = -(Real.log x) - Real.log n := by
      rw [Real.log_inv, Real.log_mul (ne_of_gt hpos) (ne_of_gt hn)]
      ring
    have he2 : x * ((x * n)⁻¹ - 1) = 1 / n - x := by
      field_simp
      ring
    rw [he1, he2] at hmul
    have he3 : x * (-(Real.log x) - Real.log n)
        = -(x * Real.log x) - x * Real.log n := by ring
    rw [he3] at hmul
    linarith

theorem ent_sum_nonpos (ws : List DD) (h0 : ∀ w ∈ ws, 0 ≤ w.v)
    (h1 : (ws.map DD.v).sum = 1) :
    (ws.map (fun w => w.v * Real.log w.v)).sum ≤ 0 := by
  have hone : ∀ w ∈ ws, w.v ≤ 1 := by
    intro w hw
    have hmem : ∀ y ∈ ws.map DD.v, (0 : ℝ) ≤ y := by
      intro y hy
      obtain ⟨x, hx, rfl⟩ := List.mem_map.1 hy
      exact h0 x hx
    have := List.single_le_sum hmem w.v (List.mem_map_of_mem DD.v hw)
    rw [h1] at this
    exact this
  have hle : (ws.map (fun w => w.v * Real.log w.v)).sum
      ≤ (ws.map (fun _ => (0 : ℝ))).sum := by
    apply List.sum_le_sum
    intro w hw
    exact mul_nonpos_iff.2 (Or.inl ⟨h0 w hw, Real.log_nonpos (h0 w hw) (hone w hw)⟩)
  rw [sum_map_const, mul_zero] at hle
  exact hle

theorem ent_le_log_card (ws : List DD) (h0 : ∀ w ∈ ws, 0 ≤ w.v)
    (h1 : (ws.map DD.v).sum = 1) :
    -((ws.map (fun w => w.v * Real.log w.v)).sum) ≤ Real.log (ws.length : ℝ) := by
  have hn : (0 : ℝ) < (ws.length : ℝ) := by
    exact_mod_cast List.length_pos.2 (ws_ne_nil_of_sum_one h1)
  have hsum : (ws.map (fun w => -(w.v * Real.log w.v))).sum
      ≤ (ws.map (fun w => w.v * Real.log (ws.length : ℝ)
          + (1 / (ws.length : ℝ) - w.v))).sum :=
    List.sum_le_sum (fun w hw => negMulLog_le_aux (h0 w hw) hn)
  rw [sum_map_neg] at hsum
  have hR : (ws.map (fun w => w.v * Real.log (ws.length : ℝ)
        + (1 / (ws.length : ℝ) - w.v))).sum = Real.log (ws.length : ℝ) := by
    rw [sum_map_add, List.sum_map_mul_right, sum_map_sub, sum_map_const, h1]
    field_simp
  rw [hR] at hsum
  exact hsum

theorem effectiven_uniform (ws : List DD) (hne : ws ≠ [])
    (hu : ∀ w ∈ ws, w.v = 1 / (ws.length : ℝ)) :
    (effectiven ws).v = (ws.length : ℝ) := by
  have hn : (0 : ℝ) < (ws.length : ℝ) := by
    exact_mod_cast List.length_pos.2 hne
  have hall : ∀ t ∈ ws.map (fun w => w.v * Real.log w.v),
      t = (1 / (ws.length : ℝ)) * Real.log (1 / (ws.length : ℝ)) := by
    intro t ht
    obtain ⟨w, hw, rfl⟩ := List.mem_map.1 ht
    rw [hu w hw]
  have hrep : ws.map (fun w => w.v * Real.log w.v)
      = List.replicate ws.length
          ((1 / (ws.length : ℝ)) * Real.log (1 / (ws.length : ℝ))) := by
    have h := List.eq_replicate_length.2 hall
    rw [List.length_map] at h
    exact h
  rw [effectiven_v, hrep, List.sum_replicate, nsmul_eq_mul]
  have h2 : (ws.length : ℝ)
        * ((1 / (ws.length : ℝ)) * Real.log (1 / (ws.length : ℝ)))
      = Real.log (1 / (ws.length : ℝ)) := by
    field_simp
  rw [h2, one_div, Real.log_inv, neg_neg, Real.exp_log hn]

/-- Helper: every weight value is `1 / n` where `n` is the number of
energies the evaluator returned. -/
theorem weightsOf_vals {σ : Type} (nnp : σ → DD) (replicas : ℕ) (T : ℝ)
    (states : List σ) :
    ∀ w ∈ (weightsOf nnp replicas T states).1,
      w.v = 1 / (((extEpot nnp replicas states).1).length : ℝ) := by
  intro w hw
  rw [weightsOf_eq] at hw
  obtain ⟨x, _, rfl⟩ := List.mem_map.1 hw
  rfl

theorem weightsOf_length {σ : Type} (nnp : σ → DD) (replicas : ℕ) (T : ℝ)
    (states : List σ) :
    ((weightsOf nnp replicas T states).1).length
      = ((extEpot nnp replicas states).1).length := by
  rw [weightsOf_eq, List.length_map]

/-- C8 amended: for every weight vector with *strictly positive* components
summing to 1 — which is exactly what the softmax weight computation produces
— the effective sample size `neff = exp(-Σ w_i ln w_i)` is detached (zero
derivative) and lies between 1 and `n_states`, and it equals `n_states`
when the weights are uniform.  The original claim's quantification over
merely *nonnegative* vectors fails on the program: on any vector with a
zero entry, `torch.log` yields `-inf` there and `0 * -inf = NaN`, so
`_effectiven` returns NaN — neither 1 nor in `[1, n]` (see the
counterexample). -/
theorem effectiven_detached_in_range (ws : List DD)
    (h0 : ∀ w ∈ ws, 0 < w.v) (h1 : (ws.map DD.v).sum = 1) :
    (effectiven ws).d = 0 ∧
    1 ≤ (effectiven ws).v ∧
    (effectiven ws).v ≤ (ws.length : ℝ) ∧
    ((∀ w ∈ ws, w.v = 1 / (ws.length : ℝ)) → (effectiven ws).v = (ws.length : ℝ)) := by
  have h0w : ∀ w ∈ ws, 0 ≤ w.v := fun w hw => le_of_lt (h0 w hw)
  have hn : (0 : ℝ) < (ws.length : ℝ) := by
    exact_mod_cast List.length_pos.2 (ws_ne_nil_of_sum_one h1)
  refine ⟨rfl, ?_, ?_, effectiven_uniform ws (ws_ne_nil_of_sum_one h1)⟩
  · rw [effectiven_v]
    exact Real.one_le_exp (by linarith [ent_sum_nonpos ws h0w h1])
  · rw [effectiven_v]
    calc Real.exp (-((ws.map (fun w => w.v * Real.log w.v)).sum))
        ≤ Real.exp (Real.log (ws.length : ℝ)) :=
          Real.exp_le_exp.2 (ent_le_log_card ws h0w h1)
      _ = (ws.length : ℝ) := Real.exp_log hn

/-- Witness for C8 (amended): the strictly positive uniform two-state
vector `[1/2, 1/2]` (with nonzero derivative entries, showing the detach). -/
theorem effectiven_detached_in_range_witness :
    ((∀ w ∈ [(⟨1/2, 5⟩ : DD), ⟨1/2, 3⟩], 0 < w.v) ∧
      (([(⟨1/2, 5⟩ : DD), ⟨1/2, 3⟩]).map DD.v).sum = 1) ∧
    (effectiven [(⟨1/2, 5⟩ : DD), ⟨1/2, 3⟩]).d = 0 ∧
    (effectiven [(⟨1/2, 5⟩ : DD), ⟨1/2, 3⟩]).v
      = (([(⟨1/2, 5⟩ : DD), ⟨1/2, 3⟩]).length : ℝ) := by
  have h0a : ∀ w ∈ [(⟨1/2, 5⟩ : DD), ⟨1/2, 3⟩], 0 < w.v := by
    intro w hw
    simp at hw
    rcases hw with rfl | rfl <;> norm_num
  have h1a : (([(⟨1/2, 5⟩ : DD), ⟨1/2, 3⟩]).map DD.v).sum = 1 := by
    simp
    norm_num
  refine ⟨⟨h0a, h1a⟩, (effectiven_detached_in_range _ h0a h1a).1, ?_⟩
  apply (effectiven_detached_in_range _ h0a h1a).2.2.2
  intro w hw
  simp at hw
  rcases hw with rfl | rfl <;> norm_num

/-- C8 counterexample: the point-mass weight vector `[1, 0]` is nonnegative
and sums to 1 with all weight on one state, yet the program's
`_effectiven` computes `torch.log([1, 0]) = [0, -inf]`, then
`[1·0, 0·(-inf)] = [0, NaN]`, and NaN propagates: the result is NaN — not 1
and not in the claimed range `[1, n]`.  Evaluated in the IEEE-754
special-value model `flEffectiven` of the same source lines. -/
theorem effectiven_nan_on_zero_weight :
    (∀ w ∈ [(1:ℝ), 0], 0 ≤ w) ∧
    ([(1:ℝ), 0]).sum = 1 ∧
    flEffectiven [(1:ℝ), 0] = Fl.nan := by
  refine ⟨?_, by norm_num, ?_⟩
  · intro w hw
    simp at hw
    rcases hw with rfl | rfl <;> norm_num
  · have h1 : flLog 1 = Fl.fin (Real.log 1) := by
      unfold flLog
      rw [if_neg (by norm_num), if_neg (by norm_num)]
    have h0 : flLog 0 = Fl.ninf := by
      unfold flLog
      rw [if_pos rfl]
    have hm : flMul (Fl.fin 0) Fl.ninf = Fl.nan := by
      show (if (0:ℝ) > 0 then Fl.ninf else if (0:ℝ) < 0 then Fl.pinf else Fl.nan)
        = Fl.nan
      rw [if_neg (by norm_num), if_neg (by norm_num)]
    unfold flEffectiven flSum
    simp only [List.map_cons, List.map_nil, h1, h0, List.zipWith_cons_cons,
      List.zipWith_nil_right, hm, List.foldr_cons, List.foldr_nil]
    rfl

/-- C4 amended: because the detached energies are numerically identical to
the energies, the weight values do not depend on the energies at all —
driving one state's energy arbitrarily low leaves every weight at `1/n` and
`neff` at `n` (the weight does not tend to 1 and `neff` does not tend
to 1). -/
theorem weights_insensitive_to_energies {σ : Type} (nnp : σ → DD)
    (replicas : ℕ) (T : ℝ) (states : List σ) (h1 : 1 ≤ replicas)
    (h2 : replicas ≤ states.length) :
    (∀ w ∈ (weightsOf nnp replicas T states).1,
      w.v = 1 / (((weightsOf nnp replicas T states).1).length : ℝ)) ∧
    (effectiven ((weightsOf nnp replicas T states).1)).v
      = (((weightsOf nnp replicas T states).1).length : ℝ) := by
  have hlen := extEpot_length_pos nnp replicas states h1 h2
  have hvals : ∀ w ∈ (weightsOf nnp replicas T states).1,
      w.v = 1 / (((weightsOf nnp replicas T states).1).length : ℝ) := by
    intro w hw
    rw [weightsOf_length]
    exact weightsOf_vals nnp replicas T states w hw
  refine ⟨hvals, effectiven_uniform _ ?_ hvals⟩
  rw [← List.length_pos, weightsOf_length]
  exact hlen

/-- Witness for C4 (amended), at energies `[0, 0, 0, 100000]`, one replica,
`T = 350`. -/
theorem weights_insensitive_to_energies_witness :
    ((1 : ℕ) ≤ 1 ∧ (1 : ℕ) ≤ [(0:ℝ), 0, 0, 100000].length) ∧
    (effectiven ((weightsOf (fun x : ℝ => (⟨x, 0⟩ : DD)) 1 350
        [(0:ℝ), 0, 0, 100000]).1)).v
      = (((weightsOf (fun x : ℝ => (⟨x, 0⟩ : DD)) 1 350
          [(0:ℝ), 0, 0, 100000]).1).length : ℝ) :=
  ⟨⟨by decide, by decide⟩,
    (weights_insensitive_to_energies (fun x : ℝ => (⟨x, 0⟩ : DD)) 1 350
      [(0:ℝ), 0, 0, 100000] (by decide) (by decide)).2⟩

/-- C4 counterexample: at energies `[0, 0, 0, 100000]` with `T = 350` the
fourth state's weight value is `1/4` (not ≈ 0) and `neff = 4` (not ≈ 3),
because the detached energies cancel the energies in value. -/
theorem energies_low_state_counterexample :
    (((weightsOf (fun x : ℝ => (⟨x, 0⟩ : DD)) 1 350 [(0:ℝ), 0, 0, 100000]).1).get
        ⟨3, by decide⟩).v = 1 / 4 ∧
    (effectiven ((weightsOf (fun x : ℝ => (⟨x, 0⟩ : DD)) 1 350
      [(0:ℝ), 0, 0, 100000]).1)).v = 4 ∧
    ¬ ((1 : ℝ) / 4 < 1 / 100) ∧ (4 : ℝ) ≠ 3 := by
  have hlen : ((extEpot (fun x : ℝ => (⟨x, 0⟩ : DD)) 1 [(0:ℝ), 0, 0, 100000]).1).length
      = 4 := by decide
  have hlen2 : ((weightsOf (fun x : ℝ => (⟨x, 0⟩ : DD)) 1 350
      [(0:ℝ), 0, 0, 100000]).1).length = 4 := by
    rw [weightsOf_length, hlen]
  have hvals : ∀ w ∈ (weightsOf (fun x : ℝ => (⟨x, 0⟩ : DD)) 1 350
      [(0:ℝ), 0, 0, 100000]).1,
      w.v = 1 / (((weightsOf (fun x : ℝ => (⟨x, 0⟩ : DD)) 1 350
        [(0:ℝ), 0, 0, 100000]).1).length : ℝ) := by
    intro w hw
    rw [weightsOf_length]
    exact weightsOf_vals _ 1 350 _ w hw
  refine ⟨?_, ?_, by norm_num, by norm_num⟩
  · have hg := hvals _ (List.get_mem (weightsOf (fun x : ℝ => (⟨x, 0⟩ : DD)) 1 350
      [(0:ℝ), 0, 0, 100000]).1 3 (by decide))
    rw [hg, hlen2]
    norm_num
  · have := effectiven_uniform ((weightsOf (fun x : ℝ => (⟨x, 0⟩ : DD)) 1 350
      [(0:ℝ), 0, 0, 100000]).1)
      (by rw [← List.length_pos, hlen2]; norm_num) hvals
    rw [this, hlen2]
    norm_num

/-- C10.  The `neff_threshold` parameter of `compute_we` has no influence on
its result: the body never reads it (and never invokes `effectiven`), so any
two threshold values give identical results. -/
theorem compute_we_neff_threshold_irrelevant {σ : Type} (nnp : σ → DD)
    (metric : σ → σ → ℝ) (replicas : ℕ) (T : ℝ) (states : List σ)
    (crystal : σ) (t1 t2 : Option ℝ) :
    compute_we nnp metric replicas T states crystal t1
      = compute_we nnp metric replicas T states crystal t2 := rfl

/-! Lemmas for the weighted-ensemble observable. -/

theorem clamp_eq_min (o c : ℝ) : (if o > c then c else o) = min o c := by
  rcases le_or_lt o c with h | h
  · rw [if_neg (not_lt.2 h), min_eq_left h]
  · rw [if_pos h, min_eq_right h.le]

theorem compute_we_def {σ : Type} (nnp : σ → DD) (metric : σ → σ → ℝ)
    (replicas : ℕ) (T : ℝ) (states : List σ) (crystal : σ) (t : Option ℝ) :
    compute_we nnp metric replicas T states crystal t
      = (dsum (List.zipWith (fun wi oi => DD.mul wi (⟨oi, 0⟩ : DD))
          ((weightsOf nnp replicas T states).1)
          ((states.map (fun s => metric s crystal)).map
            (fun o => if o > CLAMP then CLAMP else o))),
        ((states.map (fun s => metric s crystal)).map
            (fun o => if o > CLAMP then CLAMP else o)).sum
          / (((states.map (fun s => metric s crystal)).map
            (fun o => if o > CLAMP then CLAMP else o)).length : ℝ)) := rfl

/-- C5.  In `compute_we` every per-state metric value is clamped to the
upper bound `10e6 = 1e7` before aggregation: the weighted observable's value
is `Σ_i w_i·min(obs_i, 1e7)`, and any two metrics that agree after clamping
(in particular, two metrics taking different values above `1e7` at some
state) give identical `compute_we` results, so a value above the bound
contributes only the clamp value itself. -/
theorem compute_we_clamps_observable {σ : Type} (nnp : σ → DD)
    (metric metric2 : σ → σ → ℝ) (replicas : ℕ) (T : ℝ) (states : List σ)
    (crystal : σ) (t : Option ℝ) :
    ((compute_we nnp metric replicas T states crystal t).1).v
      = (List.zipWith (fun w o => w.v * min o CLAMP)
          ((weightsOf nnp replicas T states).1)
          (states.map (fun s => metric s crystal))).sum ∧
    ((∀ s, min (metric s crystal) CLAMP = min (metric2 s crystal) CLAMP) →
      compute_we nnp metric replicas T states crystal t
        = compute_we nnp metric2 replicas T states crystal t) := by
  constructor
  · rw [compute_we_def]
    dsimp only
    rw [dsum_v, List.map_zipWith, List.zipWith_map_right]
    have hf : (fun (wi : DD) (o : ℝ)
          => (DD.mul wi (⟨if o > CLAMP then CLAMP else o, 0⟩ : DD)).v)
        = fun (wi : DD) (o : ℝ) => wi.v * min o CLAMP := by
      funext wi o
      show wi.v * (if o > CLAMP then CLAMP else o) = wi.v * min o CLAMP
      rw [clamp_eq_min]
    rw [hf]
  · intro h
    have hobs : (states.map (fun s => metric s crystal)).map
          (fun o => if o > CLAMP then CLAMP else o)
        = (states.map (fun s => metric2 s crystal)).map
          (fun o => if o > CLAMP then CLAMP else o) := by
      rw [List.map_map, List.map_map]
      apply List.map_congr_left
      intro s _
      show (if metric s crystal > CLAMP then CLAMP else metric s crystal)
        = (if metric2 s crystal > CLAMP then CLAMP else metric2 s crystal)
      rw [clamp_eq_min, clamp_eq_min, h s]
    rw [compute_we_def, compute_we_def, hobs]

/-- Witness for C5: two constant metrics with distinct values `2e7` and
`3e7`, both above the clamp bound, give identical results. -/
theorem compute_we_clamps_observable_witness :
    (∀ s : ℝ, min ((fun (_ : ℝ) (_ : ℝ) => (20000000 : ℝ)) s 0) CLAMP
      = min ((fun (_ : ℝ) (_ : ℝ) => (30000000 : ℝ)) s 0) CLAMP) ∧
    compute_we (fun x : ℝ => (⟨x, 0⟩ : DD)) (fun _ _ => (20000000 : ℝ)) 1 350
        [(0:ℝ)] 0 Option.none
      = compute_we (fun x : ℝ => (⟨x, 0⟩ : DD)) (fun _ _ => (30000000 : ℝ)) 1 350
        [(0:ℝ)] 0 Option.none := by
  have h : ∀ s : ℝ, min ((fun (_ : ℝ) (_ : ℝ) => (20000000 : ℝ)) s 0) CLAMP
      = min ((fun (_ : ℝ) (_ : ℝ) => (30000000 : ℝ)) s 0) CLAMP := by
    intro s
    show min (20000000 : ℝ) CLAMP = min (30000000 : ℝ) CLAMP
    rw [min_eq_right (by norm_num [CLAMP]), min_eq_right (by norm_num [CLAMP])]
  exact ⟨h, (compute_we_clamps_observable (fun x : ℝ => (⟨x, 0⟩ : DD))
    (fun _ _ => (20000000 : ℝ)) (fun _ _ => (30000000 : ℝ)) 1 350 [(0:ℝ)] 0
    Option.none).2 h⟩

/-! Lemmas for gradient computation and the mode flag. -/

theorem compute_gradients_def {σ : Type} (nnp : σ → DD) (metric : σ → σ → ℝ)
    (lossFn : DD → DD) (backward : List (Option ℝ) → List (Option ℝ))
    (replicas : ℕ) (T : ℝ) (crystal : σ) (states : List σ)
    (grads0 : List (Option ℝ)) (val : PyVal) :
    compute_gradients nnp metric lossFn backward replicas T crystal states grads0 val
      = (if pyEq val (PyVal.bool false) then
          (if ((compute_loss nnp metric lossFn replicas T crystal states).1).v ≠ 0 then
            Except.ok (some (backward (zero_grad grads0)),
              ((compute_loss nnp metric lossFn replicas T crystal states).1).v,
              backward (zero_grad grads0))
          else
            Except.ok (Option.none,
              ((compute_loss nnp metric lossFn replicas T crystal states).1).v,
              zero_grad grads0))
        else if pyEq val (PyVal.bool true) then
          Except.ok (Option.none,
            ((compute_loss nnp metric lossFn replicas T crystal states).1).v,
            grads0)
        else
          Except.error ()) := rfl

/-- C6 amended: in train mode with an exactly-zero loss, `compute_gradients`
skips backpropagation and returns `gradients = None` — but it does mutate
the optimizer's accumulated gradients: `optimizer.zero_grad()` runs at the
start of the train branch, before the zero-loss check, so the parameter
gradient slots come back zeroed, not as they were before the call. -/
theorem compute_gradients_zero_loss {σ : Type} (nnp : σ → DD)
    (metric : σ → σ → ℝ) (lossFn : DD → DD)
    (backward : List (Option ℝ) → List (Option ℝ)) (replicas : ℕ) (T : ℝ)
    (crystal : σ) (states : List σ) (grads0 : List (Option ℝ))
    (h : ((compute_loss nnp metric lossFn replicas T crystal states).1).v = 0) :
    compute_gradients nnp metric lossFn backward replicas T crystal states
        grads0 (PyVal.bool false)
      = Except.ok (Option.none, 0, zero_grad grads0) := by
  rw [compute_gradients_def,
    if_pos (show pyEq (PyVal.bool false) (PyVal.bool false) = true from rfl),
    if_neg (fun hne => hne h), h]

/-- Witness for C6: a loss function that is constantly zero, with a prior
gradient `some 5` attached; the call returns no gradients and the zeroed
slot. -/
theorem compute_gradients_zero_loss_witness :
    ((compute_loss (fun x : ℝ => (⟨x, 0⟩ : DD)) (fun s _ => s)
        (fun _ => (⟨0, 0⟩ : DD)) 1 350 0 [(0:ℝ)]).1).v = 0 ∧
    compute_gradients (fun x : ℝ => (⟨x, 0⟩ : DD)) (fun s _ => s)
        (fun _ => (⟨0, 0⟩ : DD)) id 1 350 0 [(0:ℝ)] [some 5] (PyVal.bool false)
      = Except.ok (Option.none, 0, zero_grad [some 5]) :=
  ⟨rfl, compute_gradients_zero_loss (fun x : ℝ => (⟨x, 0⟩ : DD)) (fun s _ => s)
    (fun _ => (⟨0, 0⟩ : DD)) id 1 350 0 [(0:ℝ)] [some 5] rfl⟩

/-- C6 counterexample: with a constantly-zero loss and a pre-call gradient
slot `some 5`, the call returns `gradients = None` but the slot comes back
as `some 0` — the accumulated gradient was mutated (zeroed), refuting "the
parameter gradient slots are left as they were before the call". -/
theorem compute_gradients_zero_loss_mutates :
    compute_gradients (fun x : ℝ => (⟨x, 0⟩ : DD)) (fun s _ => s)
        (fun _ => (⟨0, 0⟩ : DD)) id 1 350 (0:ℝ) [(0:ℝ)] [some (5:ℝ)]
        (PyVal.bool false)
      = Except.ok (Option.none, 0, [some (0:ℝ)]) ∧
    [some (0:ℝ)] ≠ [some (5:ℝ)] := by
  constructor
  · rw [compute_gradients_def,
      if_pos (show pyEq (PyVal.bool false) (PyVal.bool false) = true from rfl),
      if_neg (fun hne => hne rfl)]
    rfl
  · simp

/-- C9 amended: `compute_gradients` raises `ValueError` exactly when the
mode flag is not Python-`==`-equal to `False` nor to `True`.  This is weaker
than the claim: because Python `==` identifies `0` with `False` and `1` with
`True`, the non-boolean flags `0`, `0.0`, `1`, `1.0` are *not* rejected —
they silently select train or validation mode. -/
theorem compute_gradients_rejects_unequal_flags {σ : Type} (nnp : σ → DD)
    (metric : σ → σ → ℝ) (lossFn : DD → DD)
    (backward : List (Option ℝ) → List (Option ℝ)) (replicas : ℕ) (T : ℝ)
    (crystal : σ) (states : List σ) (grads0 : List (Option ℝ)) (v : PyVal)
    (h1 : pyEq v (PyVal.bool false) = false)
    (h2 : pyEq v (PyVal.bool true) = false) :
    compute_gradients nnp metric lossFn backward replicas T crystal states
      grads0 v = Except.error () := by
  rw [compute_gradients_def, h1, h2]
  simp

/-- Witness for C9: the string flag `"x"` is equal to neither boolean and is
rejected. -/
theorem compute_gradients_rejects_unequal_flags_witness :
    (pyEq (PyVal.str "x") (PyVal.bool false) = false ∧
      pyEq (PyVal.str "x") (PyVal.bool true) = false) ∧
    compute_gradients (fun x : ℝ => (⟨x, 0⟩ : DD)) (fun s _ => s)
        (fun l => l) id 1 350 (0:ℝ) [(0:ℝ)] [] (PyVal.str "x")
      = Except.error () :=
  ⟨⟨rfl, rfl⟩, compute_gradients_rejects_unequal_flags
    (fun x : ℝ => (⟨x, 0⟩ : DD)) (fun s _ => s) (fun l => l) id 1 350 (0:ℝ)
    [(0:ℝ)] [] (PyVal.str "x") rfl rfl⟩

/-- C9 counterexample: the integer flag `0` is not a boolean, yet the call
does not fail — Python `0 == False` holds, so the train branch runs and the
call returns normally. -/
theorem compute_gradients_accepts_int_zero :
    pyIsBool (PyVal.int 0) = false ∧
    compute_gradients (fun x : ℝ => (⟨x, 0⟩ : DD)) (fun s _ => s)
        (fun l => l) id 1 350 (0:ℝ) [(0:ℝ)] [] (PyVal.int 0)
      ≠ Except.error () := by
  refine ⟨rfl, ?_⟩
  rw [compute_gradients_def,
    if_pos (show pyEq (PyVal.int 0) (PyVal.bool false) = true from rfl)]
  split <;> simp

/-! Lemmas for dynamic gradient clipping. -/

theorem sq_sum_nonneg (g : List ℝ) : 0 ≤ (g.map (fun x => x ^ 2)).sum := by
  apply List.sum_nonneg
  intro x hx
  obtain ⟨y, _, rfl⟩ := List.mem_map.1 hx
  positivity

theorem enorm_nonneg (g : List ℝ) : 0 ≤ enorm g := Real.sqrt_nonneg _

theorem enorm_scale (g : List ℝ) (k : ℝ) :
    enorm (g.map (fun x => x * k)) = |k| * enorm g := by
  unfold enorm
  rw [List.map_map]
  have h : ((fun x => x ^ 2) ∘ fun x => x * k) = fun x : ℝ => (x ^ 2) * (k ^ 2) := by
    funext x
    show (x * k) ^ 2 = x ^ 2 * k ^ 2
    ring
  rw [h, List.sum_map_mul_right, Real.sqrt_mul (sq_sum_nonneg g), Real.sqrt_sq_eq_abs]
  ring

theorem enorm_clip_le (g : List ℝ) (c : ℝ) (hc : 0 ≤ c) :
    enorm (clip_grad_norm g c) ≤ c := by
  unfold clip_grad_norm
  split
  case isTrue h =>
    have hpos : 0 < enorm g := lt_of_le_of_lt hc h
    rw [enorm_scale, abs_of_nonneg (div_nonneg hc (enorm_nonneg g)),
      div_mul_cancel₀ c (ne_of_gt hpos)]
  case isFalse h => exact not_lt.1 h

theorem clip_gradients_def (q : List ℝ) (params : List (Option (List ℝ))) :
    clip_gradients q params
      = (if get_grad_norm params > 1.5 * qmean q + 2 * qstd q then
          (qadd q (1.5 * qmean q + 2 * qstd q),
           params.map (fun g => g.map
             (fun v => clip_grad_norm v (1.5 * qmean q + 2 * qstd q))))
        else
          (qadd q (get_grad_norm params),
           params.map (fun g => g.map
             (fun v => clip_grad_norm v (1.5 * qmean q + 2 * qstd q))))) := rfl

theorem clip_gradients_snd (q : List ℝ) (params : List (Option (List ℝ))) :
    (clip_gradients q params).2
      = params.map (fun g => g.map
          (fun v => clip_grad_norm v (1.5 * qmean q + 2 * qstd q))) := by
  rw [clip_gradients_def]
  split <;> rfl

theorem clip_gradients_fst (q : List ℝ) (params : List (Option (List ℝ))) :
    (clip_gradients q params).1
      = qadd q (if get_grad_norm params > 1.5 * qmean q + 2 * qstd q
          then 1.5 * qmean q + 2 * qstd q else get_grad_norm params) := by
  rw [clip_gradients_def]
  split <;> rfl

/-- C3 amended: the dynamic-clipping step uses the threshold
`1.5·mean(history) + 2·std(history)` and computes the pre-clip total
gradient norm across all tracked parameters, but it clips each parameter's
gradient *individually* to the threshold (a per-parameter clip, not the
standard global-norm clip): afterwards every single parameter's gradient
norm is at most the threshold, while the total norm may still exceed it.
The history update is as claimed: the threshold is appended when the
pre-clip total norm exceeded it, otherwise the raw norm is appended. -/
theorem clip_gradients_per_param (q : List ℝ) (params : List (Option (List ℝ)))
    (hc : 0 ≤ 1.5 * qmean q + 2 * qstd q) :
    (∀ g ∈ (clip_gradients q params).2, ∀ v2, g = some v2 →
      enorm v2 ≤ 1.5 * qmean q + 2 * qstd q) ∧
    (clip_gradients q params).1
      = qadd q (if get_grad_norm params > 1.5 * qmean q + 2 * qstd q
          then 1.5 * qmean q + 2 * qstd q else get_grad_norm params) := by
  refine ⟨?_, clip_gradients_fst q params⟩
  intro g hg v2 hv2
  rw [clip_gradients_snd] at hg
  obtain ⟨g0, _, rfl⟩ := List.mem_map.1 hg
  obtain ⟨v0, _, rfl⟩ := Option.map_eq_some'.1 hv2
  exact enorm_clip_le v0 _ hc

/-- Witness for C3 (amended): seeded history `[3000, 3000]` (threshold
`4500`), one parameter with gradient `[1]` and one without. -/
theorem clip_gradients_per_param_witness :
    (0 : ℝ) ≤ 1.5 * qmean [(3000:ℝ), 3000] + 2 * qstd [(3000:ℝ), 3000] ∧
    (clip_gradients [(3000:ℝ), 3000] [some [(1:ℝ)], Option.none]).1
      = qadd [(3000:ℝ), 3000]
          (if get_grad_norm [some [(1:ℝ)], Option.none]
              > 1.5 * qmean [(3000:ℝ), 3000] + 2 * qstd [(3000:ℝ), 3000]
           then 1.5 * qmean [(3000:ℝ), 3000] + 2 * qstd [(3000:ℝ), 3000]
           else get_grad_norm [some [(1:ℝ)], Option.none]) ∧
    enorm (clip_grad_norm [(1:ℝ)]
        (1.5 * qmean [(3000:ℝ), 3000] + 2 * qstd [(3000:ℝ), 3000]))
      ≤ 1.5 * qmean [(3000:ℝ), 3000] + 2 * qstd [(3000:ℝ), 3000] := by
  have hm : qmean [(3000:ℝ), 3000] = 3000 := by
    unfold qmean
    norm_num
  have hs : qstd [(3000:ℝ), 3000] = 0 := by
    unfold qstd
    rw [hm]
    norm_num
  have hc : (0 : ℝ) ≤ 1.5 * qmean [(3000:ℝ), 3000] + 2 * qstd [(3000:ℝ), 3000] := by
    rw [hm, hs]
    norm_num
  have hth := clip_gradients_per_param [(3000:ℝ), 3000] [some [(1:ℝ)], Option.none] hc
  refine ⟨hc, hth.2, ?_⟩
  apply hth.1 (some (clip_grad_norm [(1:ℝ)]
    (1.5 * qmean [(3000:ℝ), 3000] + 2 * qstd [(3000:ℝ), 3000])))
  · rw [clip_gradients_snd]
    simp
  · rfl

/-- C3 counterexample: seeded history `[3000, 3000]` gives threshold
`1.5·3000 + 2·0 = 4500`; two parameters with gradients `[4500]` each have
individual norm `4500 ≤ 4500` and are left untouched, so the pre-clip total
norm `√(4500² + 4500²) = 4500·√2 > 4500` is *not* scaled down to the
threshold — after clipping the total norm still differs from the threshold,
refuting the standard-global-clip sentence (the history append itself
behaves as claimed: the threshold `4500` is appended). -/
theorem clip_gradients_not_global_counterexample :
    get_grad_norm [some [(4500:ℝ)], some [4500]]
      > 1.5 * qmean [(3000:ℝ), 3000] + 2 * qstd [(3000:ℝ), 3000] ∧
    get_grad_norm ((clip_gradients [(3000:ℝ), 3000]
        [some [(4500:ℝ)], some [4500]]).2)
      ≠ 1.5 * qmean [(3000:ℝ), 3000] + 2 * qstd [(3000:ℝ), 3000] ∧
    (clip_gradients [(3000:ℝ), 3000] [some [(4500:ℝ)], some [4500]]).1
      = [3000, 3000, 4500] := by
  have hm : qmean [(3000:ℝ), 3000] = 3000 := by
    unfold qmean
    norm_num
  have hs : qstd [(3000:ℝ), 3000] = 0 := by
    unfold qstd
    rw [hm]
    norm_num
  have hc45 : 1.5 * qmean [(3000:ℝ), 3000] + 2 * qstd [(3000:ℝ), 3000] = 4500 := by
    rw [hm, hs]
    norm_num
  have hg : get_grad_norm [some [(4500:ℝ)], some [4500]] = Real.sqrt 40500000 := by
    unfold get_grad_norm
    norm_num
  have hgt : (4500 : ℝ) < Real.sqrt 40500000 :=
    (Real.lt_sqrt (by norm_num)).2 (by norm_num)
  have hen : enorm [(4500:ℝ)] = 4500 := by
    unfold enorm
    rw [show (([(4500:ℝ)].map (fun x => x ^ 2)).sum) = (4500 : ℝ) ^ 2 by norm_num]
    exact Real.sqrt_sq (by norm_num)
  have hclip : clip_grad_norm [(4500:ℝ)] 4500 = [(4500:ℝ)] := by
    unfold clip_grad_norm
    rw [if_neg]
    rw [hen]
    exact lt_irrefl 4500
  have hsnd : (clip_gradients [(3000:ℝ), 3000] [some [(4500:ℝ)], some [4500]]).2
      = [some [(4500:ℝ)], some [4500]] := by
    rw [clip_gradients_snd, hc45]
    simp [hclip]
  refine ⟨?_, ?_, ?_⟩
  · rw [hc45, hg]
    exact hgt
  · rw [hsnd, hc45, hg]
    exact ne_of_gt hgt
  · rw [clip_gradients_fst, hc45, hg, if_pos hgt]
    rfl

end TorchmdDMS
